import Mathlib

/-!
Verification development for the `math_tools` Home Assistant custom
integration.  The integration marshals Home Assistant service-call and
intent arguments into JSON payloads for a remote math server.  The
definitions below are a shallow embedding of the marshalling core:

* Python strings are modelled as `List Char`; `str.strip`, `str.split`,
  `str.rstrip` and `str.join` are reproduced on character lists.
* Python runtime values reaching the handlers are modelled by `Raw`
  (`None`, `bool`, numbers, strings, lists); Python numbers are modelled
  as exact rationals, and `float(x)` string parsing is modelled as a
  decimal reader over rationals (plain decimal literals, the only form
  the code ever produces or the claims mention).
* A raised Python exception is modelled as `Option.none` / `Except.error`.
-/

/-- Python whitespace test used by `str.strip()` (ASCII whitespace:
space, tab, newline, carriage return, vertical tab, form feed). -/
def isPyWS (c : Char) : Bool :=
  c = ' ' || c = '\t' || c = '\n' || c = '\r' || c = Char.ofNat 11 || c = Char.ofNat 12

/-- `s.strip()` with the default argument: drop whitespace at both ends. -/
def pyStrip (cs : List Char) : List Char :=
  ((cs.dropWhile isPyWS).reverse.dropWhile isPyWS).reverse

/-- `s.rstrip("/")`: drop trailing `'/'` characters. -/
def pyRStripSlash (cs : List Char) : List Char :=
  (cs.reverse.dropWhile (fun c => c = '/')).reverse

/-- `s.split(sep)` for a one-character separator: Python keeps empty
fragments, and the split of the empty string is `[""]`. -/
def splitOnCh (sep : Char) : List Char → List (List Char)
  | [] => [[]]
  | c :: cs =>
    if c = sep then [] :: splitOnCh sep cs
    else
      match splitOnCh sep cs with
      | [] => [[c]]
      | f :: rest => (c :: f) :: rest

/-- `sep.join(fragments)`. -/
def joinSep (sep : List Char) : List (List Char) → List Char
  | [] => []
  | [f] => f
  | f :: fs => f ++ sep ++ joinSep sep fs

/-- Numeric value of a decimal digit character, `none` on anything else. -/
def digitVal (c : Char) : Option Nat :=
  if 48 ≤ c.toNat && c.toNat ≤ 57 then some (c.toNat - 48) else none

/-- The decimal digit character of a digit value below ten. -/
def digitCh : Nat → Char
  | 0 => '0' | 1 => '1' | 2 => '2' | 3 => '3' | 4 => '4'
  | 5 => '5' | 6 => '6' | 7 => '7' | 8 => '8' | _ => '9'

/-- Whether every character of the list is a decimal digit. -/
def allDigits (cs : List Char) : Bool :=
  cs.all (fun c => (digitVal c).isSome)

/-- Value of a big-endian digit-character run (`0` for the empty run,
matching how the parser below uses it for the two sides of a point). -/
def natFromDigits (cs : List Char) : Nat :=
  cs.foldl (fun a c => a * 10 + (digitVal c).getD 0) 0

/-- Value of a big-endian list of digit values. -/
def digitsToNat (ds : List Nat) : Nat :=
  ds.foldl (fun a d => a * 10 + d) 0

/-- Little-endian base-10 digit list of `n`, written with explicit fuel
(`n` itself is always enough fuel). -/
def natDigitsRev : Nat → Nat → List Nat
  | 0, _ => []
  | fuel + 1, n => if n = 0 then [] else n % 10 :: natDigitsRev fuel (n / 10)

/-- Decimal rendering of a natural number (`str(n)` for `n ≥ 0`). -/
def renderNat (n : Nat) : List Char :=
  if n = 0 then ['0'] else ((natDigitsRev n n).reverse.map digitCh)

/-- `str(i)` for a Python integer. -/
def renderInt (i : Int) : List Char :=
  if i < 0 then '-' :: renderNat i.natAbs else renderNat i.natAbs

/-- Unsigned part of CPython `float()` string parsing, restricted to the
plain decimal grammar `digits [ "." digits ]` (at least one digit), the
only grammar the integration's inputs and the claims exercise; the value
is kept exact as a rational. -/
def pyParseUnsigned (cs : List Char) : Option ℚ :=
  match splitOnCh '.' cs with
  | [i] =>
    if !i.isEmpty && allDigits i then some ((natFromDigits i : ℚ)) else none
  | [i, f] =>
    if (!i.isEmpty || !f.isEmpty) && allDigits i && allDigits f then
      some ((natFromDigits i : ℚ) + (natFromDigits f : ℚ) / (10 : ℚ) ^ f.length)
    else none
  | _ => none

/-- CPython `float(s)` on a string: strip whitespace, optional sign,
then the unsigned decimal body.  `none` models a raised `ValueError`. -/
def pyParseFloat (cs : List Char) : Option ℚ :=
  match pyStrip cs with
  | [] => none
  | c :: rest =>
    if c = '-' then (pyParseUnsigned rest).map (fun q => -q)
    else if c = '+' then pyParseUnsigned rest
    else pyParseUnsigned (c :: rest)

/-- Python runtime values that can reach the marshalling code: `None`,
booleans, numbers (exact rationals), strings, lists. -/
inductive Raw where
  | none
  | bool (b : Bool)
  | num (q : ℚ)
  | str (cs : List Char)
  | list (xs : List Raw)

/-- `float(x)` on a runtime value: numbers pass through, booleans become
`0`/`1`, strings are parsed, `None` and lists raise (`none`). -/
def pyFloat : Raw → Option ℚ
  | Raw.none => Option.none
  | Raw.bool b => some (if b then 1 else 0)
  | Raw.num q => some q
  | Raw.str cs => pyParseFloat cs
  | Raw.list _ => Option.none

/-- Python truthiness of a runtime value (`bool(x)`). -/
def pyTruthy : Raw → Bool
  | Raw.none => false
  | Raw.bool b => b
  | Raw.num q => decide (q ≠ 0)
  | Raw.str cs => !cs.isEmpty
  | Raw.list xs => !xs.isEmpty

def Raw.isStr : Raw → Bool
  | Raw.str _ => true
  | _ => false

def Raw.isList : Raw → Bool
  | Raw.list _ => true
  | _ => false

/-- Left-to-right traversal failing on the first failing element: the
evaluation order of a Python list comprehension whose body can raise. -/
def mapOpt (f : α → Option β) : List α → Option (List β)
  | [] => some []
  | x :: xs =>
    match f x with
    | some y => (mapOpt f xs).map (fun ys => y :: ys)
    | Option.none => Option.none

/-- The string arm shared by every `values` normalizer:
`[float(x.strip()) for x in values.split(",") if x.strip()]`. -/
def strToFloats (cs : List Char) : Option (List ℚ) :=
  mapOpt (fun x => pyParseFloat (pyStrip x))
    ((splitOnCh ',' cs).filter (fun x => !(pyStrip x).isEmpty))

/-- The lenient `values` normalizer: `_to_floats` in
`custom_components/math_tools/intent.py` and the inline normalization of
`_register_values_service` in both `__init__.py` files — string: split on
commas, strip, drop empty fragments, parse; list: coerce elementwise;
anything else (including `None`): empty list. -/
def to_floats : Raw → Option (List ℚ)
  | Raw.str cs => strToFloats cs
  | Raw.list xs => mapOpt pyFloat xs
  | _ => some []

/-- The strict `values` normalizer of the `std`, `moving_average`,
`rolling_min` and `rolling_max` handlers (both deployment profiles):
`if isinstance(values, str): ... else: values = [float(x) for x in values]`
— there is no list test, so a non-string non-list value (in particular
`None` when the field is absent) raises a `TypeError` (`none`). -/
def to_floats_strict : Raw → Option (List ℚ)
  | Raw.str cs => strToFloats cs
  | Raw.list xs => mapOpt pyFloat xs
  | _ => Option.none

/-- The services taking a list-shaped `values` argument. -/
inductive ValuesService where
  | mean | median | sort | std | moving_average | rolling_min | rolling_max
deriving DecidableEq

/-- Which normalizer each `values` service applies to its raw `values`
input: `mean`, `median`, `sort` go through `_register_values_service`
(lenient); `std` and the window services use the strict inline variant. -/
def serviceNormalize : ValuesService → Raw → Option (List ℚ)
  | ValuesService.mean, r => to_floats r
  | ValuesService.median, r => to_floats r
  | ValuesService.sort, r => to_floats r
  | ValuesService.std, r => to_floats_strict r
  | ValuesService.moving_average, r => to_floats_strict r
  | ValuesService.rolling_min, r => to_floats_strict r
  | ValuesService.rolling_max, r => to_floats_strict r

/-- `call.data`, a string-keyed mapping of runtime values. -/
abbrev Dict := List (String × Raw)

/-- `d.get(k)` (first binding wins, as in a Python dict with unique keys). -/
def dictGet (d : Dict) (k : String) : Option Raw :=
  (d.find? (fun p => p.1 == k)).map Prod.snd

/-- `d.get(k, v)`. -/
def dictGetD (d : Dict) (k : String) (v : Raw) : Raw :=
  (dictGet d k).getD v

/-- `k in d`. -/
def dictHas (d : Dict) (k : String) : Bool :=
  (dictGet d k).isSome

/-- Payload built by a `_register_values_service` handler:
`{"values": values}` then each declared extra field copied verbatim when
present in the call data. -/
def valuesServicePayload (extra : List String) (d : Dict) : Option (List (String × Raw)) :=
  (to_floats (dictGetD d "values" Raw.none)).map (fun vs =>
    ("values", Raw.list (vs.map Raw.num)) ::
      (extra.filter (fun f => dictHas d f)).map (fun f => (f, dictGetD d f Raw.none)))

/-- The `sort` service: `_register_values_service("sort", "/algorithms/sort", ["reverse"])`. -/
def sortPayload (d : Dict) : Option (List (String × Raw)) :=
  valuesServicePayload ["reverse"] d

/-- The `std` service handler's payload: strict normalization, then
`{"values": values, "sample": bool(call.data.get("sample", False))}` —
the `sample` key is always posted. -/
def stdPayload (d : Dict) : Option (List (String × Raw)) :=
  (to_floats_strict (dictGetD d "values" Raw.none)).map (fun vs =>
    [("values", Raw.list (vs.map Raw.num)),
     ("sample", Raw.bool (pyTruthy (dictGetD d "sample" (Raw.bool false))))])

/-- Whether a built payload carries a field. -/
def payloadHas (p : List (String × Raw)) (k : String) : Bool :=
  p.any (fun e => e.1 == k)

/-- Field lookup in a built payload. -/
def payloadGet (p : List (String × Raw)) (k : String) : Option Raw :=
  (p.find? (fun e => e.1 == k)).map Prod.snd

/-! ## Service registry binding -/

/-- The host's service table for the `math_tools` domain: operation name
to handler (handlers carried as opaque identifiers).  The table itself
lives in Home Assistant, not in this repository; modelled from the spec:
§6 "Host service/intent registry" — the host keeps one handler per
registered name, and registering an existing name assigns the new
handler in place of the old one (`hass.services.async_register`);
`hass.services.has_service` tests presence. -/
abbrev Registry := List (String × Nat)

/-- `hass.services.has_service(DOMAIN, name)`. -/
def hasService (name : String) (r : Registry) : Bool :=
  r.any (fun p => p.1 == name)

/-- `hass.services.async_register(DOMAIN, name, handler)`: assign the
handler under `name`, replacing an existing binding. -/
def asyncRegister (name : String) (h : Nat) : Registry → Registry
  | [] => [(name, h)]
  | p :: rest =>
    if p.1 == name then (name, h) :: rest else p :: asyncRegister name h rest

/-- Handler bound under a name. -/
def lookupSvc (name : String) (r : Registry) : Option Nat :=
  (r.find? (fun p => p.1 == name)).map Prod.snd

/-- Registration in the config-entry profile
(`custom_components/math_tools/__init__.py`): every registration site is
guarded by `_svc_exists` / `hass.services.has_service`, a no-op when the
name is already bound. -/
def registerGuarded (name : String) (h : Nat) (r : Registry) : Registry :=
  if hasService name r then r else asyncRegister name h r

/-- Registration in the legacy environment-variable profile
(`custom_components/__init__.py`): `hass.services.async_register` is
called unconditionally, with no existence guard. -/
def registerLegacy (name : String) (h : Nat) (r : Registry) : Registry :=
  asyncRegister name h r

/-! ## Transport adapter -/

/-- Errors a handler invocation can surface: Python `KeyError` /
`ValueError` / `TypeError` on argument extraction, and the `_post`
failure on an upstream HTTP status ≥ 400 (the spec's `UpstreamError`),
which carries the status code and the parsed (or raw) body. -/
inductive PyErr where
  | keyError (k : String)
  | valueError
  | upstream (status : Nat) (body : Raw)

/-- The upstream HTTP exchange as the handler observes it: the status
code and the body parsed by `resp.json(content_type=None)`. -/
structure HttpResponse where
  status : Nat
  body : Raw

/-- `_post` (both `__init__.py` profiles) after the request is sent:
parse the body, raise carrying status and parsed body if the status is
≥ 400, otherwise return the parsed body.  There is no retry. -/
def postOutcome (resp : HttpResponse) : Except PyErr Raw :=
  if 400 ≤ resp.status then Except.error (PyErr.upstream resp.status resp.body)
  else Except.ok resp.body

/-- `call.data[k]`: `KeyError` when absent. -/
def getItem (d : Dict) (k : String) : Except PyErr Raw :=
  match dictGet d k with
  | some v => Except.ok v
  | Option.none => Except.error (PyErr.keyError k)

/-- `float(x)` as an exception-carrying computation. -/
def pyFloatE (v : Raw) : Except PyErr ℚ :=
  match pyFloat v with
  | some q => Except.ok q
  | Option.none => Except.error PyErr.valueError

/-- Argument extraction of a binary service handler:
`a = float(call.data["a"]); b = float(call.data["b"])`. -/
def binaryFields (d : Dict) : Except PyErr (ℚ × ℚ) := do
  let a ← pyFloatE (← getItem d "a")
  let b ← pyFloatE (← getItem d "b")
  pure (a, b)

/-- A binary service invocation against a mocked upstream response:
extract the fields, post, discard the response body. -/
def binaryServiceCall (d : Dict) (resp : HttpResponse) : Except PyErr Unit := do
  let _ ← binaryFields d
  let _ ← postOutcome resp
  pure ()

/-- Headers attached by `_post`: always `Content-Type`, and `X-API-Key`
exactly when `if api_key:` holds — `None` and the empty string are both
falsy, so no header is attached for them. -/
def postHeaders : Option (List Char) → List (String × List Char)
  | Option.none => [("Content-Type", "application/json".data)]
  | some k =>
    if k.isEmpty then [("Content-Type", "application/json".data)]
    else [("Content-Type", "application/json".data), ("X-API-Key", k)]

/-- Header lookup. -/
def headerGet (hs : List (String × List Char)) (k : String) : Option (List Char) :=
  (hs.find? (fun p => p.1 == k)).map Prod.snd

/-! ## Config flow -/

/-- A submitted configuration form: `voluptuous` guarantees `base_url`
is present and `api_key` defaults to the empty string. -/
structure FlowInput where
  base_url : List Char
  api_key : List Char

/-- Outcome of a config-flow step. -/
inductive FlowResult where
  | abortSingleInstance
  | form (errors : List (String × String))
  | entry (base_url : List Char) (api_key : Option (List Char))

/-- `MathToolsConfigFlow.async_step_user`: abort when an entry already
exists; show the empty form when no input was submitted; otherwise strip
the base URL (`strip()` then `rstrip("/")`), re-show the form with an
`invalid_url` error unless it starts with `http://` or `https://`, and
otherwise create the entry with the processed URL and with the stripped
API key, an empty key stored as `None` (`.strip() or None`). -/
def asyncStepUser (hasEntries : Bool) (input : Option FlowInput) : FlowResult :=
  if hasEntries then FlowResult.abortSingleInstance
  else
    match input with
    | Option.none => FlowResult.form []
    | some u =>
      let base := pyRStripSlash (pyStrip u.base_url)
      if !("http://".data.isPrefixOf base || "https://".data.isPrefixOf base) then
        FlowResult.form [("base_url", "invalid_url")]
      else
        FlowResult.entry base
          (if (pyStrip u.api_key).isEmpty then Option.none else some (pyStrip u.api_key))

/-! ## Intent speech formatting -/

/-- `FibonacciIntent.async_handle`'s speech body:
`", ".join(map(str, seq[:30])) + (", and more" if len(seq) > 30 else "")`. -/
def fibSpeak (seq : List Int) : List Char :=
  joinSep ", ".data ((seq.take 30).map renderInt) ++
    (if 30 < seq.length then ", and more".data else [])

/-- The full Fibonacci speech sentence. -/
def fibSpeech (n : Int) (seq : List Int) : List Char :=
  "The Fibonacci sequence up to ".data ++ renderInt n ++ " terms is: ".data ++
    fibSpeak seq ++ ['.']

/-- `str(seq)` for a Python list of integers: `[a, b, c]`. -/
def pyStrIntList (xs : List Int) : List Char :=
  '[' :: (joinSep ", ".data (xs.map renderInt) ++ [']'])

/-- The Fibonacci display card body: `f"n={n}: {seq}"`. -/
def fibCard (n : Int) (seq : List Int) : List Char :=
  "n=".data ++ renderInt n ++ ": ".data ++ pyStrIntList seq

/-- `PrimeFactorsIntent.async_handle`'s speech body:
`" × ".join(map(str, fac)) if fac else "none"`. -/
def pfSpeak (fac : List Int) : List Char :=
  if fac.isEmpty then "none".data else joinSep " × ".data (fac.map renderInt)

/-- The full prime-factors speech sentence. -/
def pfSpeech (n : Int) (fac : List Int) : List Char :=
  "The prime factors of ".data ++ renderInt n ++ " are ".data ++ pfSpeak fac ++ ['.']

/-- The prime-factors display card body: `f"{n} → {fac}"`. -/
def pfCard (n : Int) (fac : List Int) : List Char :=
  renderInt n ++ " → ".data ++ pyStrIntList fac

/-! ## Decimal renderings (for relating string and list inputs) -/

/-- A decimal literal: sign, integer part, fractional digit run.  This is
the rendering-side counterpart of the decimal grammar `pyParseFloat`
reads; `fracDigits` is constrained to digit values in the theorems. -/
structure DecNum where
  neg : Bool
  intPart : Nat
  fracDigits : List Nat

/-- The characters of a decimal literal. -/
def renderDec (d : DecNum) : List Char :=
  (if d.neg then ['-'] else []) ++ renderNat d.intPart ++
    (if d.fracDigits.isEmpty then [] else '.' :: d.fracDigits.map digitCh)

/-- The rational value of a decimal literal. -/
def decVal (d : DecNum) : ℚ :=
  (if d.neg then -1 else 1) *
    ((d.intPart : ℚ) + (digitsToNat d.fracDigits : ℚ) / (10 : ℚ) ^ d.fracDigits.length)

/-- A fragment of a comma-separated `values` string: either whitespace
only (dropped by the normalizer) or a decimal literal with surrounding
padding. -/
inductive Frag where
  | blank (ws : List Char)
  | item (l : List Char) (d : DecNum) (r : List Char)

/-- The characters of a fragment. -/
def fragStr : Frag → List Char
  | Frag.blank ws => ws
  | Frag.item l d r => l ++ renderDec d ++ r

/-- The value a fragment contributes, if any. -/
def fragVal : Frag → Option ℚ
  | Frag.blank _ => Option.none
  | Frag.item _ d _ => some (decVal d)

/-- Well-formedness of a fragment: padding is whitespace and digit
values are digits. -/
def FragWF : Frag → Prop
  | Frag.blank ws => ∀ c ∈ ws, isPyWS c = true
  | Frag.item l d r =>
      (∀ c ∈ l, isPyWS c = true) ∧ (∀ c ∈ r, isPyWS c = true) ∧
        ∀ k ∈ d.fracDigits, k < 10

/-! ## General lemmas about the embedding -/

theorem mapOpt_congr_some {α β : Type} (f : α → Option β) (g : α → β) :
    ∀ xs : List α, (∀ x ∈ xs, f x = some (g x)) → mapOpt f xs = some (xs.map g) := by
  intro xs
  induction xs with
  | nil => intro _; rfl
  | cons x xs ih =>
    intro h
    have hx := h x (by simp)
    simp [mapOpt, hx, ih (fun y hy => h y (by simp [hy]))]

theorem mapOpt_eq_none {α β : Type} (f : α → Option β) :
    ∀ (xs : List α) (x : α), x ∈ xs → f x = Option.none → mapOpt f xs = Option.none := by
  intro xs
  induction xs with
  | nil => intro x hx; cases hx
  | cons y ys ih =>
    intro x hx hfx
    rcases List.mem_cons.mp hx with rfl | hmem
    · simp [mapOpt, hfx]
    · cases hfy : f y with
      | none => simp [mapOpt, hfy]
      | some v => simp [mapOpt, hfy, ih x hmem hfx]

theorem hasService_iff_mem (name : String) (r : Registry) :
    hasService name r = true ↔ name ∈ r.map Prod.fst := by
  simp [hasService, List.any_eq_true, List.mem_map]

theorem asyncRegister_keys_of_present (name : String) (h : Nat) :
    ∀ r : Registry, hasService name r = true →
      (asyncRegister name h r).map Prod.fst = r.map Prod.fst := by
  intro r
  induction r with
  | nil => intro hr; simp [hasService] at hr
  | cons p rest ih =>
    intro hr
    by_cases hp : p.1 = name
    · simp [asyncRegister, hp]
    · have : hasService name rest = true := by
        simp [hasService, hp] at hr ⊢
        exact hr
      simp [asyncRegister, hp, ih this]

theorem asyncRegister_of_absent (name : String) (h : Nat) :
    ∀ r : Registry, hasService name r = false →
      asyncRegister name h r = r ++ [(name, h)] := by
  intro r
  induction r with
  | nil => intro _; rfl
  | cons p rest ih =>
    intro hr
    have hp : ¬ p.1 = name := by
      intro hp
      simp [hasService, hp] at hr
    have hrest : hasService name rest = false := by
      simp [hasService, hp] at hr ⊢
      exact hr
    simp [asyncRegister, hp, ih hrest]

theorem lookupSvc_asyncRegister (name : String) (h : Nat) :
    ∀ r : Registry, lookupSvc name (asyncRegister name h r) = some h := by
  intro r
  induction r with
  | nil => simp [asyncRegister, lookupSvc, List.find?]
  | cons p rest ih =>
    by_cases hp : p.1 = name
    · simp [asyncRegister, hp, lookupSvc, List.find?]
    · have hp' : (p.1 == name) = false := by simp [hp]
      simp only [asyncRegister, hp', Bool.false_eq_true, if_false]
      show ((p :: asyncRegister name h rest).find? (fun q => q.1 == name)).map Prod.snd = some h
      rw [List.find?_cons_of_neg _ (by simp [hp])]
      exact ih

/-- C1 (amended): in the config-entry profile every registration site is
guarded by `_svc_exists`, so registering a name that is already bound is
a no-op; in the legacy environment-variable profile the registration is
unguarded and assigns the new handler over the old one — the registry
still maps each name to exactly one handler (the key list is unchanged
when the name was present, extended by the name when it was absent, and
key uniqueness is preserved). -/
theorem registration_profiles (r : Registry) (name : String) (h : Nat) :
    (hasService name r = true → registerGuarded name h r = r) ∧
    lookupSvc name (registerLegacy name h r) = some h ∧
    (registerLegacy name h r).map Prod.fst =
      (if hasService name r then r.map Prod.fst else r.map Prod.fst ++ [name]) ∧
    ((r.map Prod.fst).Nodup → ((registerLegacy name h r).map Prod.fst).Nodup) := by
  refine ⟨?_, ?_, ?_, ?_⟩
  · intro hr
    simp [registerGuarded, hr]
  · exact lookupSvc_asyncRegister name h r
  · by_cases hr : hasService name r
    · simp [registerLegacy, hr, asyncRegister_keys_of_present name h r hr]
    · have hr' : hasService name r = false := by simpa using hr
      simp [registerLegacy, hr', asyncRegister_of_absent name h r hr']
  · intro hnd
    by_cases hr : hasService name r
    · rw [registerLegacy, asyncRegister_keys_of_present name h r hr]
      exact hnd
    · have hr' : hasService name r = false := by simpa using hr
      rw [registerLegacy, asyncRegister_of_absent name h r hr']
      have hnm : name ∉ r.map Prod.fst := by
        intro hmem
        rw [← hasService_iff_mem] at hmem
        simp [hmem] at hr'
      simp [List.nodup_append, hnd, hnm]

/-- C1 witness: with `add` already registered, the guarded registration
of the config-entry profile leaves the registry unchanged. -/
theorem registration_profiles_witness :
    hasService "add" [("add", 1)] = true ∧
    registerGuarded "add" 2 [("add", 1)] = [("add", 1)] :=
  ⟨by decide, (registration_profiles [("add", 1)] "add" 2).1 (by decide)⟩

/-- C1 counterexample: in the legacy environment-variable profile a
second registration under an already-registered name is not a no-op —
the existing handler is replaced. -/
theorem registration_legacy_not_noop :
    registerLegacy "add" 2 [("add", 1)] = [("add", 2)] ∧
    registerLegacy "add" 2 [("add", 1)] ≠ [("add", 1)] := by
  constructor
  · decide
  · decide

/-- C2 (amended): when the raw `values` input is absent (`None`) or of
any type other than string or list, the lenient normalizer — used by the
`mean`, `median` and `sort` services and by every intent `values` slot —
yields the empty sequence; the strict variant used by the `std`,
`moving_average`, `rolling_min` and `rolling_max` service handlers
raises instead (modelled as `none`). -/
theorem values_default_behaviour (raw : Raw)
    (hs : raw.isStr = false) (hl : raw.isList = false) :
    (to_floats raw = some [] ∧
     serviceNormalize ValuesService.mean raw = some [] ∧
     serviceNormalize ValuesService.median raw = some [] ∧
     serviceNormalize ValuesService.sort raw = some []) ∧
    (serviceNormalize ValuesService.std raw = Option.none ∧
     serviceNormalize ValuesService.moving_average raw = Option.none ∧
     serviceNormalize ValuesService.rolling_min raw = Option.none ∧
     serviceNormalize ValuesService.rolling_max raw = Option.none) := by
  cases raw <;>
    simp_all [serviceNormalize, to_floats, to_floats_strict, Raw.isStr, Raw.isList]

/-- C2 witness: a numeric (non-string, non-list) `values` input is
normalized to the empty list by the lenient services and rejected by
`std`. -/
theorem values_default_behaviour_witness :
    (Raw.num 5).isStr = false ∧ (Raw.num 5).isList = false ∧
    to_floats (Raw.num 5) = some [] ∧
    serviceNormalize ValuesService.std (Raw.num 5) = Option.none :=
  ⟨rfl, rfl, (values_default_behaviour (Raw.num 5) rfl rfl).1.1,
    (values_default_behaviour (Raw.num 5) rfl rfl).2.1⟩

/-- C2 counterexample: for the `std` service an absent `values` input
(`None`) does not normalize to the empty sequence — the handler raises. -/
theorem std_none_values_raises :
    ¬ (serviceNormalize ValuesService.std Raw.none = some []) := by
  decide

/-- C5: list-shaped `values` input is coerced elementwise by `float`;
if every element coerces the result is the elementwise coercion, and if
any element fails the whole normalization fails (the `ValueError`
propagates, modelled as `none`). -/
theorem sequence_values_coercion (xs : List Raw) :
    ((∀ x ∈ xs, (pyFloat x).isSome = true) →
       to_floats (Raw.list xs) = some (xs.map (fun x => (pyFloat x).getD 0))) ∧
    ((∃ x ∈ xs, pyFloat x = Option.none) → to_floats (Raw.list xs) = Option.none) := by
  constructor
  · intro h
    show mapOpt pyFloat xs = _
    apply mapOpt_congr_some
    intro x hx
    rcases hq : pyFloat x with _ | q
    · have := h x hx
      simp [hq] at this
    · simp [hq]
  · rintro ⟨x, hx, hfx⟩
    exact mapOpt_eq_none pyFloat xs x hx hfx

/-- C5 witness: `[1, "2", 3]` normalizes to the elementwise coercion,
and `["x"]` fails. -/
theorem sequence_values_coercion_witness :
    to_floats (Raw.list [Raw.num 1, Raw.str ['2'], Raw.num 3]) =
      some ([Raw.num 1, Raw.str ['2'], Raw.num 3].map (fun x => (pyFloat x).getD 0)) ∧
    to_floats (Raw.list [Raw.str ['x']]) = Option.none :=
  ⟨(sequence_values_coercion _).1 (by decide),
   (sequence_values_coercion _).2 ⟨Raw.str ['x'], List.mem_singleton.mpr rfl, by decide⟩⟩

/-- C4: the transport adapter returns the parsed body for statuses below
400 and fails with the upstream error (carrying status and parsed body)
for statuses ≥ 400; a service invocation whose fields extract cleanly
surfaces exactly that error to the caller — nothing catches or retries
it. -/
theorem upstream_error_contract (resp : HttpResponse) (d : Dict) :
    (400 ≤ resp.status → postOutcome resp = Except.error (PyErr.upstream resp.status resp.body)) ∧
    (resp.status < 400 → postOutcome resp = Except.ok resp.body) ∧
    (∀ ab : ℚ × ℚ, binaryFields d = Except.ok ab → 400 ≤ resp.status →
       binaryServiceCall d resp = Except.error (PyErr.upstream resp.status resp.body)) := by
  refine ⟨?_, ?_, ?_⟩
  · intro h
    simp [postOutcome, h]
  · intro h
    simp [postOutcome, Nat.not_le.mpr h]
  · intro ab hab h400
    simp [binaryServiceCall, hab, postOutcome, h400, Bind.bind, Except.bind]

/-- C4 witness: with valid fields and a mocked HTTP 500 response, the
service call fails with the upstream error carrying status and body. -/
theorem upstream_error_contract_witness :
    binaryFields [("a", Raw.num 2), ("b", Raw.num 3)] = Except.ok (2, 3) ∧
    binaryServiceCall [("a", Raw.num 2), ("b", Raw.num 3)] ⟨500, Raw.str "boom".data⟩ =
      Except.error (PyErr.upstream 500 (Raw.str "boom".data)) :=
  ⟨rfl, (upstream_error_contract ⟨500, Raw.str "boom".data⟩
      [("a", Raw.num 2), ("b", Raw.num 3)]).2.2 (2, 3) rfl (by decide)⟩

/-- C6: the Fibonacci speech renders exactly the first 30 terms, with
the ", and more" suffix appended precisely when the sequence is longer
than 30 terms, while the card always renders the full sequence. -/
theorem fibonacci_speech_truncation (n : Int) (seq : List Int) :
    (seq.length ≤ 30 →
       fibSpeech n seq =
         "The Fibonacci sequence up to ".data ++ renderInt n ++ " terms is: ".data ++
           joinSep ", ".data (seq.map renderInt) ++ ['.']) ∧
    (30 < seq.length →
       fibSpeech n seq =
         "The Fibonacci sequence up to ".data ++ renderInt n ++ " terms is: ".data ++
           joinSep ", ".data ((seq.take 30).map renderInt) ++ ", and more".data ++ ['.']) ∧
    fibCard n seq =
      "n=".data ++ renderInt n ++ ": ".data ++
        ('[' :: (joinSep ", ".data (seq.map renderInt) ++ [']'])) := by
  refine ⟨?_, ?_, rfl⟩
  · intro h
    simp [fibSpeech, fibSpeak, List.take_of_length_le h, Nat.not_lt.mpr h]
  · intro h
    simp [fibSpeech, fibSpeak, h]

/-- C6 witness: a 40-term mocked result produces speech holding the
first 30 renderings plus the "and more" suffix, and a card holding all
40. -/
theorem fibonacci_speech_truncation_witness :
    30 < ((List.range 40).map (fun k => (k : Int))).length ∧
    fibSpeech 40 ((List.range 40).map (fun k => (k : Int))) =
      "The Fibonacci sequence up to ".data ++ renderInt 40 ++ " terms is: ".data ++
        joinSep ", ".data ((((List.range 40).map (fun k => (k : Int))).take 30).map renderInt) ++
        ", and more".data ++ ['.'] ∧
    fibCard 40 ((List.range 40).map (fun k => (k : Int))) =
      "n=".data ++ renderInt 40 ++ ": ".data ++
        ('[' :: (joinSep ", ".data (((List.range 40).map (fun k => (k : Int))).map renderInt) ++ [']'])) :=
  ⟨by decide, (fibonacci_speech_truncation 40 _).2.1 (by decide),
    (fibonacci_speech_truncation 40 _).2.2⟩

/-- C7: the prime-factors speech joins the factor renderings with the
multiplication separator when the factor list is non-empty, and says
"none" when it is empty. -/
theorem prime_factors_speech (n : Int) (fac : List Int) :
    (fac = [] →
       pfSpeech n fac =
         "The prime factors of ".data ++ renderInt n ++ " are ".data ++ "none".data ++ ['.']) ∧
    (fac ≠ [] →
       pfSpeech n fac =
         "The prime factors of ".data ++ renderInt n ++ " are ".data ++
           joinSep " × ".data (fac.map renderInt) ++ ['.']) := by
  constructor
  · rintro rfl
    simp [pfSpeech, pfSpeak]
  · intro h
    have he : fac.isEmpty = false := by
      simpa [List.isEmpty_iff] using h
    simp [pfSpeech, pfSpeak, he]

/-- C7 witness: an empty factor sequence (n = 1) produces the "none"
speech; a non-empty one is joined with the separator. -/
theorem prime_factors_speech_witness :
    pfSpeech 1 [] =
      "The prime factors of ".data ++ renderInt 1 ++ " are ".data ++ "none".data ++ ['.'] ∧
    pfSpeech 6 [2, 3] =
      "The prime factors of ".data ++ renderInt 6 ++ " are ".data ++
        joinSep " × ".data ([(2 : Int), 3].map renderInt) ++ ['.'] :=
  ⟨(prime_factors_speech 1 []).1 rfl, (prime_factors_speech 6 [2, 3]).2 (by decide)⟩

/-- C9: with no prior entry, a submitted configuration whose processed
base URL (whitespace- then trailing-slash-stripped) does not start with
`http://` or `https://` re-shows the form with an `invalid_url` error
and creates no entry; when it does start with one of the two prefixes an
entry is created carrying the processed URL; and every created entry's
URL starts with one of the two prefixes, so an invalid URL never reaches
the transport adapter. -/
theorem config_flow_url_validation (u : FlowInput) :
    ((("http://".data.isPrefixOf (pyRStripSlash (pyStrip u.base_url)) ||
        "https://".data.isPrefixOf (pyRStripSlash (pyStrip u.base_url))) = false) →
       asyncStepUser false (some u) = FlowResult.form [("base_url", "invalid_url")]) ∧
    ((("http://".data.isPrefixOf (pyRStripSlash (pyStrip u.base_url)) ||
        "https://".data.isPrefixOf (pyRStripSlash (pyStrip u.base_url))) = true) →
       asyncStepUser false (some u) =
         FlowResult.entry (pyRStripSlash (pyStrip u.base_url))
           (if (pyStrip u.api_key).isEmpty then Option.none else some (pyStrip u.api_key))) ∧
    (∀ (hasE : Bool) (inp : Option FlowInput) (b : List Char) (k : Option (List Char)),
       asyncStepUser hasE inp = FlowResult.entry b k →
       ("http://".data.isPrefixOf b || "https://".data.isPrefixOf b) = true) := by
  refine ⟨?_, ?_, ?_⟩
  · intro h
    simp [asyncStepUser, h]
  · intro h
    simp [asyncStepUser, h]
  · intro hasE inp b k hres
    cases hasE with
    | true => simp [asyncStepUser] at hres
    | false =>
      cases inp with
      | none => simp [asyncStepUser] at hres
      | some w =>
        by_cases hv : ("http://".data.isPrefixOf (pyRStripSlash (pyStrip w.base_url)) ||
            "https://".data.isPrefixOf (pyRStripSlash (pyStrip w.base_url))) = true
        · simp [asyncStepUser, hv] at hres
          obtain ⟨hb, -⟩ := hres
          rw [← hb]
          exact hv
        · have hv' : ("http://".data.isPrefixOf (pyRStripSlash (pyStrip w.base_url)) ||
              "https://".data.isPrefixOf (pyRStripSlash (pyStrip w.base_url))) = false :=
            Bool.eq_false_iff.mpr hv
          simp [asyncStepUser, hv'] at hres

/-- C9 witness: `ftp://example.com` is rejected with `invalid_url`;
`" https://example.com/ "` is accepted with the stripped URL and the
stripped API key. -/
theorem config_flow_url_validation_witness :
    asyncStepUser false (some ⟨"ftp://example.com".data, []⟩) =
      FlowResult.form [("base_url", "invalid_url")] ∧
    asyncStepUser false (some ⟨" https://example.com/ ".data, " key ".data⟩) =
      FlowResult.entry (pyRStripSlash (pyStrip " https://example.com/ ".data))
        (if (pyStrip " key ".data).isEmpty then Option.none
         else some (pyStrip " key ".data)) :=
  ⟨(config_flow_url_validation ⟨"ftp://example.com".data, []⟩).1 (by decide),
   (config_flow_url_validation ⟨" https://example.com/ ".data, " key ".data⟩).2.1 (by decide)⟩

/-- C10: the transport adapter always attaches
`Content-Type: application/json`, attaches `X-API-Key` exactly when the
configured key is a non-empty string (the `if api_key:` truthiness test
skips both `None` and the empty string), and the config flow stores the
submitted key as `None` exactly when it strips to the empty string. -/
theorem api_key_header (key : Option (List Char)) :
    headerGet (postHeaders key) "Content-Type" = some ("application/json".data) ∧
    (∀ k : List Char, headerGet (postHeaders key) "X-API-Key" = some k ↔
       (key = some k ∧ k ≠ [])) ∧
    (∀ (u : FlowInput) (b : List Char) (kk : Option (List Char)),
       asyncStepUser false (some u) = FlowResult.entry b kk →
       (kk = Option.none ↔ pyStrip u.api_key = [])) := by
  refine ⟨?_, ?_, ?_⟩
  · cases key with
    | none => rfl
    | some k =>
      by_cases hk : k.isEmpty
      · simp only [postHeaders]
        rw [if_pos hk]
        rfl
      · simp only [postHeaders]
        rw [if_neg hk]
        rfl
  · intro k
    cases key with
    | none =>
      have hg : headerGet (postHeaders Option.none) "X-API-Key" = Option.none := by decide
      simp [hg]
    | some k0 =>
      by_cases hk : k0.isEmpty
      · have h0 : k0 = [] := List.isEmpty_iff.mp hk
        subst h0
        have hg : headerGet (postHeaders (some [])) "X-API-Key" = Option.none := by decide
        simp [hg]
      · have hne : k0 ≠ [] := by
          intro h0
          rw [h0] at hk
          exact hk rfl
        have hg : headerGet (postHeaders (some k0)) "X-API-Key" = some k0 := by
          simp only [postHeaders]
          rw [if_neg hk]
          unfold headerGet
          rw [List.find?_cons_of_neg _ (by decide)]
          rw [List.find?_cons_of_pos _ (by simp)]
          rfl
        rw [hg]
        constructor
        · intro h
          obtain rfl : k0 = k := by injection h
          exact ⟨rfl, hne⟩
        · rintro ⟨h1, -⟩
          injection h1 with h1
          rw [h1]
  · intro u b kk hres
    by_cases hv : ("http://".data.isPrefixOf (pyRStripSlash (pyStrip u.base_url)) ||
        "https://".data.isPrefixOf (pyRStripSlash (pyStrip u.base_url))) = true
    · simp [asyncStepUser, hv] at hres
      obtain ⟨-, hk⟩ := hres
      rw [← hk]
      by_cases he : (pyStrip u.api_key).isEmpty
      · simp [he, List.isEmpty_iff.mp he]
      · have hne : pyStrip u.api_key ≠ [] := by
          intro h0
          rw [h0] at he
          exact he rfl
        simp [he, hne]
    · have hv' : ("http://".data.isPrefixOf (pyRStripSlash (pyStrip u.base_url)) ||
          "https://".data.isPrefixOf (pyRStripSlash (pyStrip u.base_url))) = false :=
        Bool.eq_false_iff.mpr hv
      simp [asyncStepUser, hv'] at hres

/-- C10 witness: a configured non-empty key is sent in the `X-API-Key`
header, and a stored entry whose submitted key strips to empty carries
`None`. -/
theorem api_key_header_witness :
    headerGet (postHeaders (some ['k'])) "X-API-Key" = some ['k'] ∧
    (Option.none = (Option.none : Option (List Char)) ↔ pyStrip "  ".data = []) :=
  ⟨((api_key_header (some ['k'])).2.1 ['k']).mpr ⟨rfl, by decide⟩,
   (api_key_header Option.none).2.2 ⟨"https://h".data, "  ".data⟩
     (pyRStripSlash (pyStrip "https://h".data))
     (if (pyStrip "  ".data).isEmpty then Option.none else some (pyStrip "  ".data))
     rfl⟩

/-- C8 (amended): for `sort` — registered through
`_register_values_service` with `extra_fields=["reverse"]` — the posted
payload carries `reverse` if and only if the call data does, and the
value is copied through verbatim; the `std` handler, by contrast, always
posts a `sample` key: `False` when the field is absent, the Python
`bool(...)` coercion of the value when present. -/
theorem extra_fields_payload (d : Dict) :
    (∀ vs : List ℚ, to_floats (dictGetD d "values" Raw.none) = some vs →
       sortPayload d = some (("values", Raw.list (vs.map Raw.num)) ::
         (if dictHas d "reverse" then [("reverse", dictGetD d "reverse" Raw.none)] else []))) ∧
    (∀ vs : List ℚ, to_floats_strict (dictGetD d "values" Raw.none) = some vs →
       stdPayload d = some [("values", Raw.list (vs.map Raw.num)),
         ("sample", Raw.bool (pyTruthy (dictGetD d "sample" (Raw.bool false))))]) := by
  constructor
  · intro vs hvs
    simp only [sortPayload, valuesServicePayload, hvs, Option.map_some]
    by_cases hr : dictHas d "reverse" <;> simp [hr, List.filter]
  · intro vs hvs
    simp [stdPayload, hvs]

/-- C8 witness: with `values=[1]` and no `reverse` field the sort
payload has no extra entry; with `sample="y"` present the std payload
carries its coercion. -/
theorem extra_fields_payload_witness :
    to_floats (dictGetD [("values", Raw.list [Raw.num 1])] "values" Raw.none) = some [1] ∧
    sortPayload [("values", Raw.list [Raw.num 1])] =
      some (("values", Raw.list (([1] : List ℚ).map Raw.num)) ::
        (if dictHas [("values", Raw.list [Raw.num 1])] "reverse"
         then [("reverse", dictGetD [("values", Raw.list [Raw.num 1])] "reverse" Raw.none)]
         else [])) ∧
    stdPayload [("values", Raw.list [Raw.num 1]), ("sample", Raw.str ['y'])] =
      some [("values", Raw.list (([1] : List ℚ).map Raw.num)),
        ("sample", Raw.bool (pyTruthy
          (dictGetD [("values", Raw.list [Raw.num 1]), ("sample", Raw.str ['y'])]
            "sample" (Raw.bool false))))] :=
  ⟨rfl, (extra_fields_payload [("values", Raw.list [Raw.num 1])]).1 [1] rfl,
   (extra_fields_payload [("values", Raw.list [Raw.num 1]), ("sample", Raw.str ['y'])]).2 [1] rfl⟩

/-- C8 counterexample: a call to `std` without a `sample` field posts a
payload that does contain a `sample` key (set to `False`). -/
theorem std_payload_always_has_sample :
    stdPayload [("values", Raw.list [Raw.num 1])] =
      some [("values", Raw.list [Raw.num 1]), ("sample", Raw.bool false)] ∧
    payloadHas [("values", Raw.list [Raw.num 1]), ("sample", Raw.bool false)] "sample" = true := by
  exact ⟨rfl, by decide⟩

/-! ## Digit, strip and split lemmas for the string/list equivalence -/

theorem digitVal_digitCh {k : Nat} (h : k < 10) : digitVal (digitCh k) = some k := by
  interval_cases k <;> decide

theorem digit_char_class (c : Char) (h : (digitVal c).isSome = true) :
    isPyWS c = false ∧ c ≠ ',' ∧ c ≠ '.' ∧ c ≠ '-' ∧ c ≠ '+' := by
  rw [digitVal] at h
  split at h
  case isFalse => simp at h
  case isTrue hb =>
    have hb' : 48 ≤ c.toNat ∧ c.toNat ≤ 57 := by simpa using hb
    refine ⟨?_, ?_, ?_, ?_, ?_⟩
    · simp only [isPyWS, Bool.or_eq_false_iff, decide_eq_false_iff_not]
      refine ⟨⟨⟨⟨⟨?_, ?_⟩, ?_⟩, ?_⟩, ?_⟩, ?_⟩ <;>
        · rintro rfl
          exact absurd hb' (by decide)
    · rintro rfl; exact absurd hb' (by decide)
    · rintro rfl; exact absurd hb' (by decide)
    · rintro rfl; exact absurd hb' (by decide)
    · rintro rfl; exact absurd hb' (by decide)

theorem ws_char_ne_comma (c : Char) (h : isPyWS c = true) : c ≠ ',' := by
  simp only [isPyWS, Bool.or_eq_true, decide_eq_true_eq] at h
  rcases h with ((((rfl | rfl) | rfl) | rfl) | rfl) | rfl <;> decide

theorem natDigitsRev_lt : ∀ fuel n d, d ∈ natDigitsRev fuel n → d < 10 := by
  intro fuel
  induction fuel with
  | zero => intro n d h; cases h
  | succ fuel ih =>
    intro n d h
    by_cases h0 : n = 0
    · simp [natDigitsRev, h0] at h
    · simp only [natDigitsRev, h0, if_false] at h
      rcases List.mem_cons.mp h with rfl | hm
      · exact Nat.mod_lt _ (by norm_num)
      · exact ih _ d hm

theorem foldl_natDigitsRev : ∀ fuel n, n ≤ fuel → ∀ acc : Nat,
    (natDigitsRev fuel n).reverse.foldl (fun a d => a * 10 + d) acc =
      acc * 10 ^ (natDigitsRev fuel n).length + n := by
  intro fuel
  induction fuel with
  | zero =>
    intro n hn acc
    interval_cases n
    simp [natDigitsRev]
  | succ fuel ih =>
    intro n hn acc
    by_cases h0 : n = 0
    · simp [natDigitsRev, h0]
    · have hdiv : n / 10 ≤ fuel := by
        have h1 : n / 10 < n := Nat.div_lt_self (Nat.pos_of_ne_zero h0) (by norm_num)
        omega
      simp only [natDigitsRev, h0, if_false]
      rw [List.reverse_cons, List.foldl_append, ih (n / 10) hdiv acc]
      simp only [List.foldl_cons, List.foldl_nil, List.length_cons]
      have hmod : 10 * (n / 10) + n % 10 = n := Nat.div_add_mod n 10
      calc (acc * 10 ^ (natDigitsRev fuel (n / 10)).length + n / 10) * 10 + n % 10
          = acc * (10 ^ (natDigitsRev fuel (n / 10)).length * 10) +
              (10 * (n / 10) + n % 10) := by ring
        _ = acc * 10 ^ ((natDigitsRev fuel (n / 10)).length + 1) + n := by
              rw [hmod, pow_succ]

theorem natFromDigits_map_digitCh : ∀ ds : List Nat, (∀ k ∈ ds, k < 10) → ∀ acc : Nat,
    (ds.map digitCh).foldl (fun a c => a * 10 + (digitVal c).getD 0) acc =
      ds.foldl (fun a d => a * 10 + d) acc := by
  intro ds
  induction ds with
  | nil => intro _ acc; rfl
  | cons d ds ih =>
    intro h acc
    have hd : d < 10 := h d (by simp)
    simp only [List.map_cons, List.foldl_cons, digitVal_digitCh hd, Option.getD_some]
    exact ih (fun x hx => h x (by simp [hx])) _

theorem renderNat_digit (n : Nat) : ∀ c ∈ renderNat n, (digitVal c).isSome = true := by
  intro c hc
  rw [renderNat] at hc
  by_cases h0 : n = 0
  · rw [if_pos h0] at hc
    simp only [List.mem_singleton] at hc
    subst hc
    decide
  · rw [if_neg h0] at hc
    simp only [List.mem_map, List.mem_reverse] at hc
    obtain ⟨d, hd, rfl⟩ := hc
    have hlt : d < 10 := natDigitsRev_lt _ _ d hd
    rw [digitVal_digitCh hlt]
    rfl

theorem renderNat_ne_nil (n : Nat) : renderNat n ≠ [] := by
  rw [renderNat]
  by_cases h0 : n = 0
  · simp [h0]
  · rw [if_neg h0]
    obtain ⟨m, rfl⟩ := Nat.exists_eq_succ_of_ne_zero h0
    simp [natDigitsRev]

theorem natFromDigits_renderNat (n : Nat) : natFromDigits (renderNat n) = n := by
  rw [renderNat]
  by_cases h0 : n = 0
  · subst h0
    decide
  · rw [if_neg h0]
    unfold natFromDigits
    rw [natFromDigits_map_digitCh _ (fun k hk =>
      natDigitsRev_lt n n k (List.mem_reverse.mp hk)) 0]
    rw [foldl_natDigitsRev n n le_rfl 0]
    simp

theorem dropWhile_ws_append (l t : List Char) (hl : ∀ c ∈ l, isPyWS c = true) :
    (l ++ t).dropWhile isPyWS = t.dropWhile isPyWS := by
  induction l with
  | nil => rfl
  | cons c l ih =>
    have hc : isPyWS c = true := hl c (by simp)
    simp only [List.cons_append, List.dropWhile_cons, hc, if_true]
    exact ih (fun x hx => hl x (by simp [hx]))

theorem dropWhile_ws_eq_self (t : List Char) (ht : ∀ c ∈ t, isPyWS c = false) :
    t.dropWhile isPyWS = t := by
  cases t with
  | nil => rfl
  | cons c t => simp [List.dropWhile_cons, ht c (by simp)]

theorem pyStrip_all_ws (ws : List Char) (h : ∀ c ∈ ws, isPyWS c = true) :
    pyStrip ws = [] := by
  unfold pyStrip
  rw [List.dropWhile_eq_nil_iff.mpr (fun c hc => h c hc)]
  rfl

theorem pyStrip_of_forall (m : List Char) (hm : ∀ c ∈ m, isPyWS c = false) :
    pyStrip m = m := by
  unfold pyStrip
  rw [dropWhile_ws_eq_self m hm,
    dropWhile_ws_eq_self m.reverse (fun c hc => hm c (List.mem_reverse.mp hc)),
    List.reverse_reverse]

theorem pyStrip_padded (l m r : List Char) (hl : ∀ c ∈ l, isPyWS c = true)
    (hr : ∀ c ∈ r, isPyWS c = true) (hm : ∀ c ∈ m, isPyWS c = false) :
    pyStrip (l ++ m ++ r) = m := by
  unfold pyStrip
  rw [List.append_assoc, dropWhile_ws_append l (m ++ r) hl]
  cases m with
  | nil =>
    rw [List.nil_append, List.dropWhile_eq_nil_iff.mpr (fun c hc => hr c hc)]
    rfl
  | cons c m' =>
    rw [show ((c :: m') ++ r).dropWhile isPyWS = (c :: m') ++ r from by
      simp [List.dropWhile_cons, hm c (by simp)]]
    rw [List.reverse_append,
      dropWhile_ws_append r.reverse (c :: m').reverse
        (fun x hx => hr x (List.mem_reverse.mp hx)),
      dropWhile_ws_eq_self (c :: m').reverse
        (fun x hx => hm x (List.mem_reverse.mp hx)),
      List.reverse_reverse]

theorem splitOnCh_not_mem (sep : Char) : ∀ cs : List Char, sep ∉ cs →
    splitOnCh sep cs = [cs] := by
  intro cs
  induction cs with
  | nil => intro _; rfl
  | cons c cs ih =>
    intro h
    have hc : ¬ c = sep := fun h1 => h (by simp [h1])
    have hcs : sep ∉ cs := fun hm => h (by simp [hm])
    simp only [splitOnCh, hc, if_false, ih hcs]

theorem splitOnCh_append (sep : Char) (b : List Char) : ∀ a : List Char, sep ∉ a →
    splitOnCh sep (a ++ sep :: b) = a :: splitOnCh sep b := by
  intro a
  induction a with
  | nil => intro _; simp [splitOnCh]
  | cons c a ih =>
    intro h
    have hc : ¬ c = sep := fun h1 => h (by simp [h1])
    have ha : sep ∉ a := fun hm => h (by simp [hm])
    simp only [List.cons_append, splitOnCh, hc, if_false, List.append_eq, ih ha]

theorem splitOnCh_joinSep (sep : Char) : ∀ fs : List (List Char), fs ≠ [] →
    (∀ f ∈ fs, sep ∉ f) → splitOnCh sep (joinSep [sep] fs) = fs := by
  intro fs
  induction fs with
  | nil => intro h _; exact absurd rfl h
  | cons f fs ih =>
    intro _ hmem
    cases fs with
    | nil => exact splitOnCh_not_mem sep f (hmem f (by simp))
    | cons g fs' =>
      have hjoin : joinSep [sep] (f :: g :: fs') = f ++ sep :: joinSep [sep] (g :: fs') := by
        rw [show joinSep [sep] (f :: g :: fs') = f ++ [sep] ++ joinSep [sep] (g :: fs') from rfl,
          List.append_assoc, List.singleton_append]
      rw [hjoin, splitOnCh_append sep _ f (hmem f (by simp)),
        ih (by simp) (fun x hx => hmem x (by simp [hx]))]

theorem renderDec_chars (d : DecNum) (hf : ∀ k ∈ d.fracDigits, k < 10) :
    ∀ c ∈ renderDec d, isPyWS c = false ∧ c ≠ ',' := by
  intro c hc
  rw [renderDec] at hc
  rcases List.mem_append.mp hc with hc1 | hc2
  · rcases List.mem_append.mp hc1 with hsign | hint
    · by_cases hn : d.neg
      · rw [if_pos hn] at hsign
        simp only [List.mem_singleton] at hsign
        subst hsign
        exact ⟨by decide, by decide⟩
      · rw [if_neg hn] at hsign
        cases hsign
    · have hd := renderNat_digit _ c hint
      exact ⟨(digit_char_class c hd).1, (digit_char_class c hd).2.1⟩
  · by_cases he : d.fracDigits.isEmpty
    · rw [if_pos he] at hc2
      cases hc2
    · rw [if_neg he] at hc2
      rcases List.mem_cons.mp hc2 with rfl | hm
      · exact ⟨by decide, by decide⟩
      · simp only [List.mem_map] at hm
        obtain ⟨k, hk, rfl⟩ := hm
        have hlt : k < 10 := hf k hk
        have hd : (digitVal (digitCh k)).isSome = true := by
          rw [digitVal_digitCh hlt]; rfl
        exact ⟨(digit_char_class _ hd).1, (digit_char_class _ hd).2.1⟩

theorem renderDec_ne_nil (d : DecNum) : renderDec d ≠ [] := by
  rw [renderDec]
  intro h
  rcases List.append_eq_nil.mp h with ⟨h1, -⟩
  rcases List.append_eq_nil.mp h1 with ⟨-, h2⟩
  exact renderNat_ne_nil d.intPart h2

theorem pyParseUnsigned_int (i : List Char) (hne : i ≠ []) (hd : allDigits i = true)
    (hdot : '.' ∉ i) : pyParseUnsigned i = some ((natFromDigits i : ℚ)) := by
  have hsplit : splitOnCh '.' i = [i] := splitOnCh_not_mem '.' i hdot
  unfold pyParseUnsigned
  rw [hsplit]
  have hie : i.isEmpty = false := by
    cases i with
    | nil => exact absurd rfl hne
    | cons c t => rfl
  simp [hie, hd]

theorem pyParseUnsigned_frac (i f : List Char) (hne : i ≠ []) (hdi : allDigits i = true)
    (hdoti : '.' ∉ i) (hdf : allDigits f = true) (hdotf : '.' ∉ f) :
    pyParseUnsigned (i ++ '.' :: f) =
      some ((natFromDigits i : ℚ) + (natFromDigits f : ℚ) / (10 : ℚ) ^ f.length) := by
  have hsplit : splitOnCh '.' (i ++ '.' :: f) = [i, f] := by
    rw [splitOnCh_append '.' f i hdoti, splitOnCh_not_mem '.' f hdotf]
  unfold pyParseUnsigned
  rw [hsplit]
  have hie : i.isEmpty = false := by
    cases i with
    | nil => exact absurd rfl hne
    | cons c t => rfl
  simp [hie, hdi, hdf]

theorem pyParseFloat_cons (c : Char) (rest : List Char)
    (hst : pyStrip (c :: rest) = c :: rest) :
    pyParseFloat (c :: rest) =
      (if c = '-' then (pyParseUnsigned rest).map (fun q => -q)
       else if c = '+' then pyParseUnsigned rest
       else pyParseUnsigned (c :: rest)) := by
  unfold pyParseFloat
  rw [hst]

theorem allDigits_renderNat (n : Nat) : allDigits (renderNat n) = true := by
  rw [allDigits, List.all_eq_true]
  intro c hc
  exact renderNat_digit n c hc

theorem renderNat_no_dot (n : Nat) : '.' ∉ renderNat n := by
  intro hmem
  exact absurd (renderNat_digit n _ hmem) (by decide)

theorem renderNat_head_like_digit (n : Nat) (c : Char) (rest : List Char)
    (h : renderNat n = c :: rest) : ¬ c = '-' ∧ ¬ c = '+' := by
  have hd : (digitVal c).isSome = true := renderNat_digit n c (by rw [h]; simp)
  exact ⟨(digit_char_class c hd).2.2.2.1, (digit_char_class c hd).2.2.2.2⟩

theorem pyParseFloat_renderDec (d : DecNum) (hf : ∀ k ∈ d.fracDigits, k < 10) :
    pyParseFloat (renderDec d) = some (decVal d) := by
  have hclass := renderDec_chars d hf
  have hstrip : pyStrip (renderDec d) = renderDec d :=
    pyStrip_of_forall _ (fun c hc => (hclass c hc).1)
  have hdigint : allDigits (renderNat d.intPart) = true := allDigits_renderNat d.intPart
  have hdotint : '.' ∉ renderNat d.intPart := renderNat_no_dot d.intPart
  have hfd : natFromDigits (d.fracDigits.map digitCh) = digitsToNat d.fracDigits :=
    natFromDigits_map_digitCh d.fracDigits hf 0
  have hdigfrac : allDigits (d.fracDigits.map digitCh) = true := by
    rw [allDigits, List.all_eq_true]
    intro c hc
    simp only [List.mem_map] at hc
    obtain ⟨k, hk, rfl⟩ := hc
    rw [digitVal_digitCh (hf k hk)]
    rfl
  have hdotfrac : '.' ∉ d.fracDigits.map digitCh := by
    intro hmem
    simp only [List.mem_map] at hmem
    obtain ⟨k, hk, hko⟩ := hmem
    have hsome := digitVal_digitCh (hf k hk)
    have hnone : digitVal '.' = Option.none := by decide
    rw [hko, hnone] at hsome
    exact Option.noConfusion hsome
  by_cases he : d.fracDigits.isEmpty
  · have hfrac0 : d.fracDigits = [] := List.isEmpty_iff.mp he
    have hform : renderDec d = (if d.neg then ['-'] else []) ++ renderNat d.intPart := by
      rw [renderDec, if_pos he, List.append_nil]
    by_cases hn : d.neg
    · have hform' : renderDec d = '-' :: renderNat d.intPart := by
        rw [hform, if_pos hn, List.singleton_append]
      rw [hform'] at hstrip ⊢
      rw [pyParseFloat_cons '-' _ hstrip, if_pos rfl,
        pyParseUnsigned_int _ (renderNat_ne_nil d.intPart) hdigint hdotint,
        natFromDigits_renderNat]
      simp [decVal, hn, hfrac0, digitsToNat]
    · have hform' : renderDec d = renderNat d.intPart := by
        rw [hform, if_neg hn, List.nil_append]
      obtain ⟨c, rest, hcons⟩ := List.exists_cons_of_ne_nil (renderNat_ne_nil d.intPart)
      rw [hform', hcons] at hstrip ⊢
      obtain ⟨hc1, hc2⟩ := renderNat_head_like_digit d.intPart c rest hcons
      rw [pyParseFloat_cons c rest hstrip, if_neg hc1, if_neg hc2, ← hcons,
        pyParseUnsigned_int _ (renderNat_ne_nil d.intPart) hdigint hdotint,
        natFromDigits_renderNat]
      simp [decVal, hn, hfrac0, digitsToNat]
  · have hform : renderDec d = (if d.neg then ['-'] else []) ++
        (renderNat d.intPart ++ '.' :: d.fracDigits.map digitCh) := by
      rw [renderDec, if_neg he, List.append_assoc]
    by_cases hn : d.neg
    · have hform' : renderDec d =
          '-' :: (renderNat d.intPart ++ '.' :: d.fracDigits.map digitCh) := by
        rw [hform, if_pos hn, List.singleton_append]
      rw [hform'] at hstrip ⊢
      rw [pyParseFloat_cons '-' _ hstrip, if_pos rfl,
        pyParseUnsigned_frac _ _ (renderNat_ne_nil d.intPart) hdigint hdotint
          hdigfrac hdotfrac,
        natFromDigits_renderNat, hfd]
      simp only [Option.map_some', List.length_map]
      rw [decVal, if_pos hn]
      congr 1
      ring
    · have hform' : renderDec d =
          renderNat d.intPart ++ '.' :: d.fracDigits.map digitCh := by
        rw [hform, if_neg hn, List.nil_append]
      obtain ⟨c, rest, hcons⟩ := List.exists_cons_of_ne_nil (renderNat_ne_nil d.intPart)
      have hform'' : renderDec d = c :: (rest ++ '.' :: d.fracDigits.map digitCh) := by
        rw [hform', hcons, List.cons_append]
      rw [hform''] at hstrip ⊢
      obtain ⟨hc1, hc2⟩ := renderNat_head_like_digit d.intPart c rest hcons
      rw [pyParseFloat_cons c _ hstrip, if_neg hc1, if_neg hc2,
        show c :: (rest ++ '.' :: d.fracDigits.map digitCh) =
          renderNat d.intPart ++ '.' :: d.fracDigits.map digitCh from by
            rw [hcons, List.cons_append],
        pyParseUnsigned_frac _ _ (renderNat_ne_nil d.intPart) hdigint hdotint
          hdigfrac hdotfrac,
        natFromDigits_renderNat, hfd]
      simp only [List.length_map]
      rw [decVal, if_neg hn]
      congr 1
      ring

theorem mapOpt_pyFloat_num : ∀ vs : List ℚ, mapOpt pyFloat (vs.map Raw.num) = some vs := by
  intro vs
  induction vs with
  | nil => rfl
  | cons q vs ih => simp [mapOpt, pyFloat, ih]

theorem strFrag_aux : ∀ frags : List Frag, (∀ f ∈ frags, FragWF f) →
    mapOpt (fun x => pyParseFloat (pyStrip x))
      ((frags.map fragStr).filter (fun x => !(pyStrip x).isEmpty)) =
      some (frags.filterMap fragVal) := by
  intro frags
  induction frags with
  | nil => intro _; rfl
  | cons f fs ih =>
    intro hwf
    have hfw := hwf f (by simp)
    have hfs : ∀ x ∈ fs, FragWF x := fun x hx => hwf x (by simp [hx])
    cases f with
    | blank ws =>
      have hst : pyStrip ws = [] := pyStrip_all_ws ws hfw
      rw [List.map_cons,
        List.filter_cons_of_neg (by simp [fragStr, hst]),
        show (Frag.blank ws :: fs).filterMap fragVal = fs.filterMap fragVal from by
          simp [List.filterMap_cons, fragVal]]
      exact ih hfs
    | item l d r =>
      obtain ⟨hl, hr, hfd⟩ := hfw
      have hstrip : pyStrip (fragStr (Frag.item l d r)) = renderDec d :=
        pyStrip_padded l (renderDec d) r hl hr
          (fun c hc => (renderDec_chars d hfd c hc).1)
      have hkeep : (!(pyStrip (fragStr (Frag.item l d r))).isEmpty) = true := by
        rw [hstrip]
        cases hdd : renderDec d with
        | nil => exact absurd hdd (renderDec_ne_nil d)
        | cons a b => rfl
      rw [List.map_cons, List.filter_cons_of_pos (by exact hkeep)]
      simp only [mapOpt, hstrip, pyParseFloat_renderDec d hfd, ih hfs,
        List.filterMap_cons, fragVal, Option.map_some']

/-- C3: normalizing the comma-separated string rendering of a list of
decimal numbers — each with arbitrary surrounding whitespace, and with
whitespace-only fragments dropped — yields exactly the same rational
sequence as normalizing the same values given directly as a numeric
list. -/
theorem string_list_equivalence (frags : List Frag) (hwf : ∀ f ∈ frags, FragWF f) :
    to_floats (Raw.str (joinSep [','] (frags.map fragStr))) =
      to_floats (Raw.list ((frags.filterMap fragVal).map Raw.num)) ∧
    to_floats (Raw.str (joinSep [','] (frags.map fragStr))) =
      some (frags.filterMap fragVal) := by
  have hlist : to_floats (Raw.list ((frags.filterMap fragVal).map Raw.num)) =
      some (frags.filterMap fragVal) := mapOpt_pyFloat_num _
  have hnomem : ∀ s ∈ frags.map fragStr, ',' ∉ s := by
    intro s hs
    simp only [List.mem_map] at hs
    obtain ⟨g, hg, rfl⟩ := hs
    intro hmem
    cases g with
    | blank ws =>
      exact ws_char_ne_comma ',' (hwf _ hg ',' hmem) rfl
    | item l d r =>
      obtain ⟨hl, hr, hfd⟩ := hwf _ hg
      rcases List.mem_append.mp hmem with h1 | h2
      · rcases List.mem_append.mp h1 with ha | hb
        · exact ws_char_ne_comma ',' (hl ',' ha) rfl
        · exact (renderDec_chars d hfd ',' hb).2 rfl
      · exact ws_char_ne_comma ',' (hr ',' h2) rfl
  have hstr : to_floats (Raw.str (joinSep [','] (frags.map fragStr))) =
      some (frags.filterMap fragVal) := by
    cases frags with
    | nil => rfl
    | cons f fs =>
      show strToFloats _ = _
      unfold strToFloats
      rw [splitOnCh_joinSep ',' ((f :: fs).map fragStr) (by simp) hnomem]
      exact strFrag_aux (f :: fs) hwf
  exact ⟨hstr.trans hlist.symm, hstr⟩

/-- C3 witness: the fragments of `"1, 2, 3"` normalize — as a string —
to the same sequence as the direct list of their three values. -/
theorem string_list_equivalence_witness :
    joinSep [','] ([Frag.item [] ⟨false, 1, []⟩ [], Frag.item [' '] ⟨false, 2, []⟩ [],
        Frag.item [' '] ⟨false, 3, []⟩ []].map fragStr) = "1, 2, 3".data ∧
    to_floats (Raw.str (joinSep [','] ([Frag.item [] ⟨false, 1, []⟩ [],
        Frag.item [' '] ⟨false, 2, []⟩ [], Frag.item [' '] ⟨false, 3, []⟩ []].map fragStr))) =
      to_floats (Raw.list (([Frag.item [] ⟨false, 1, []⟩ [], Frag.item [' '] ⟨false, 2, []⟩ [],
        Frag.item [' '] ⟨false, 3, []⟩ []].filterMap fragVal).map Raw.num)) ∧
    to_floats (Raw.str (joinSep [','] ([Frag.item [] ⟨false, 1, []⟩ [],
        Frag.item [' '] ⟨false, 2, []⟩ [], Frag.item [' '] ⟨false, 3, []⟩ []].map fragStr))) =
      some ([Frag.item [] ⟨false, 1, []⟩ [], Frag.item [' '] ⟨false, 2, []⟩ [],
        Frag.item [' '] ⟨false, 3, []⟩ []].filterMap fragVal) := by
  have hwf : ∀ f ∈ [Frag.item [] (⟨false, 1, []⟩ : DecNum) [],
      Frag.item [' '] ⟨false, 2, []⟩ [], Frag.item [' '] ⟨false, 3, []⟩ []], FragWF f := by
    intro f hf
    fin_cases hf <;> exact ⟨by decide, by decide, by decide⟩
  exact ⟨by decide, (string_list_equivalence _ hwf).1, (string_list_equivalence _ hwf).2⟩
